import Mathlib

/-!
Verification of the scan orchestrator in `src/python/cfscanner.py`.

The embedding translates the `__main__` block of `cfscanner.py` into Lean:
the result-file header (lines 80-95), the per-result CSV row construction
(lines 188-215), and the scan consumption loop with its per-cidr progress
bookkeeping and exception handlers (lines 166-247).  Collaborators that are
not part of `src/` (the sampler in `subnets`, `mean_jitter` in
`speedtest.tools`, the `multiprocessing.Pool.imap` reordering buffer) are
modelled from the specification / documented library contract, each marked
in its doc comment.
-/

namespace CFScanner

/-- A CIDR block descriptor: base address plus prefix length (spec §3
`AddressBlock`: "base address + prefix length"). -/
structure Cidr where
  base : ℕ
  prefixLen : ℕ
deriving DecidableEq

/-- One direction of a `TrialSet`: the per-trial `speed` and `latency`
sample lists, as stored in `res.result["download"]` / `res.result["upload"]`
(`cfscanner.py` lines 189-213). -/
structure TrialDir where
  speed : List ℚ
  latency : List ℚ
deriving DecidableEq

/-- The two directions of a trial set (`res.result`). -/
structure TrialSet where
  download : TrialDir
  upload : TrialDir
deriving DecidableEq

/-- Outcome of probing one candidate, as consumed by the scan loop:
`res.ip`, `res.cidr`, `res.is_ok`, `res.message`, `res.result`
(`cfscanner.py` lines 179-221). -/
structure ProbeResult where
  ip : String
  cidr : Cidr
  is_ok : Bool
  message : String
  result : TrialSet
deriving DecidableEq

/-- The slice of `TestConfig` the scan loop reads: `n_tries` (header and raw
columns), `do_upload_test` (lines 192-200) and `sample_size` (lines 151-162,
182-183, 220). -/
structure TestConfig where
  n_tries : ℕ
  do_upload_test : Bool
  sample_size : ℕ
deriving DecidableEq

/-- One CSV field of a result row.  The source renders every field with
`str(...)` and joins with commas (line 215); we keep fields symbolic, so the
column count of a line is the length of the field list. -/
inductive Val where
  | vStr (s : String)
  | vRat (q : ℚ)
deriving DecidableEq

/-- Exceptions that the generic `except Exception` handler (lines 244-247)
can catch during per-result processing. -/
inductive PyError where
  | statisticsError
  | keyError
  | osError
deriving DecidableEq

/-- `statistics.mean` from the Python standard library: arithmetic mean,
raising `StatisticsError` on an empty sequence. -/
def mean (l : List ℚ) : Except PyError ℚ :=
  if l = [] then .error .statisticsError else .ok (l.sum / l.length)

/-- Absolute differences of consecutive samples. -/
def pairDiffs : List ℚ → List ℚ
  | a :: b :: rest => abs (b - a) :: pairDiffs (b :: rest)
  | _ => []

/-- Modelled from the spec: `mean_jitter` lives in `speedtest.tools`, which
is not under `src/`.  Spec §4.2: "mean of the absolute differences between
each consecutive pair of latency samples ...; requires at least 2 samples,
otherwise reports a sentinel \"not applicable\" value rather than failing".
The sentinel is rendered as -1, the value the source itself uses for
not-applicable upload figures (lines 192-200). -/
def mean_jitter (l : List ℚ) : ℚ :=
  if l.length < 2 then -1
  else (pairDiffs l).sum / (l.length - 1 : ℕ)

/-- Header row of the results file, written once at startup
(`cfscanner.py` lines 80-95): 7 fixed columns, then `n_tries` raw columns
for each of download speed, upload speed, download latency, upload
latency. -/
def titles (n_tries : ℕ) : List String :=
  ["ip", "avg_download_speed", "avg_upload_speed", "avg_download_latency",
   "avg_upload_latency", "avg_download_jitter", "avg_upload_jitter"]
  ++ (List.range n_tries).map (fun i => "download_speed_" ++ toString (i + 1))
  ++ (List.range n_tries).map (fun i => "upload_speed_" ++ toString (i + 1))
  ++ (List.range n_tries).map (fun i => "download_latency_" ++ toString (i + 1))
  ++ (List.range n_tries).map (fun i => "upload_latency_" ++ toString (i + 1))

/-- The `res_parts` row built for a successful result (`cfscanner.py` lines
188-214), in source order: the two jitters (lines 189-192, `mean_jitter`
never raises), then the four means (lines 193-200, `statistics.mean` raises
on an empty list), then the identity/summary fields followed by the raw
per-trial lists exactly as concatenated in lines 205-213. -/
def buildResParts (cfg : TestConfig) (res : ProbeResult) :
    Except PyError (List Val) :=
  let down_mean_jitter := mean_jitter res.result.download.latency
  let up_mean_jitter :=
    if cfg.do_upload_test then mean_jitter res.result.upload.latency else -1
  do
  let mean_down_speed ← mean res.result.download.speed
  let mean_up_speed ←
    if cfg.do_upload_test then mean res.result.upload.speed else pure (-1)
  let mean_down_latency ← mean res.result.download.latency
  let mean_up_latency ←
    if cfg.do_upload_test then mean res.result.upload.latency else pure (-1)
  pure ([Val.vStr res.ip, Val.vRat mean_down_speed, Val.vRat mean_up_speed,
         Val.vRat mean_down_latency, Val.vRat mean_up_latency,
         Val.vRat down_mean_jitter, Val.vRat up_mean_jitter]
        ++ res.result.download.speed.map Val.vRat
        ++ res.result.upload.speed.map Val.vRat
        ++ res.result.download.latency.map Val.vRat
        ++ res.result.upload.latency.map Val.vRat)

/-- Modelled from the spec: `get_num_ips_in_cidr` lives in `subnets`, not
under `src/`.  Spec §4.1: the candidate count of a block is
`min(sampleSize, addressesInBlock)`, computed algorithmically from the
prefix length, "cheap and deterministic, independent of the actual sampling
pass". -/
def get_num_ips_in_cidr (cidr : Cidr) (sample_size : ℕ) : ℕ :=
  min sample_size (2 ^ (32 - cidr.prefixLen))

/-- Modelled from the spec: `cidr_to_ip_list` lives in `subnets`, not under
`src/`.  Spec §4.1: an ordered, finite sequence of addresses drawn from the
block, of length `min(sampleSize, addressesInBlock)`; the addresses
themselves are opaque to the orchestrator, so we draw consecutive offsets
from the block base. -/
def cidr_to_ip_list (cidr : Cidr) (sample_size : ℕ) : List ℕ :=
  (List.range (get_num_ips_in_cidr cidr sample_size)).map
    (fun i => cidr.base + i)

/-- The ordered candidate list (`cfscanner.py` lines 157-164): the sampled
addresses of every block, tagged with the originating block, block order
preserved. -/
def big_ip_list (cidr_list : List Cidr) (sample_size : ℕ) :
    List (ℕ × Cidr) :=
  (cidr_list.map
    (fun cidr => (cidr_to_ip_list cidr sample_size).map
      (fun ip => (ip, cidr)))).flatten

/-- Terminal states of the scan loop (spec §4.5's
`Running → {Completed | Aborted | Cancelled}`). -/
inductive Outcome where
  | completed
  | aborted
  | cancelled
deriving DecidableEq

/-- State of the scan loop (`cfscanner.py` lines 166-247).

* `overall` — completed-advance count of the `all_ips_task` progress bar
  (line 180); task id 0, active from line 171.
* `cidr_scanned_ips` — the per-cidr dict of line 166 (keys = `cidr_list`).
* `cidr_prog_tasks` — the per-cidr task-id dict of line 168; `remove_task`
  does not delete dict entries, so ids persist after removal.
* `nextTid`/`active` — the progress display's task table: fresh ids and the
  ids currently rendered.
* `createdLog`/`removedLog` — histories of `add_task` (line 184) and
  `remove_task` (lines 221, 231, 238) calls, for stating lifecycle claims.
* `file` — lines appended to the results file after the header (line 215).
* `processed` — the results yielded by the pool and entered into the loop
  body, in consumption order.
* `errors` — number of exceptions absorbed by the generic handler
  (lines 244-247).
* `displayStopped` — `progress.stop()` called (lines 223, 232, 239).
* `poolTerminated` — `pool.terminate()` called (lines 225, 242).
* `outcome` — set when a handler `break`s out of the loop. -/
structure LoopState where
  overall : ℕ
  cidr_scanned_ips : Cidr → ℕ
  cidr_prog_tasks : Cidr → Option ℕ
  nextTid : ℕ
  active : List ℕ
  createdLog : List (Cidr × ℕ)
  removedLog : List ℕ
  file : List (List Val)
  processed : List ProbeResult
  errors : ℕ
  displayStopped : Bool
  poolTerminated : Bool
  outcome : Option Outcome

/-- Loop state on entry (`cfscanner.py` lines 166-176): overall task (id 0)
created, all per-cidr counters 0, no per-cidr tasks, empty result body. -/
def initState : LoopState :=
  { overall := 0
    cidr_scanned_ips := fun _ => 0
    cidr_prog_tasks := fun _ => none
    nextTid := 1
    active := [0]
    createdLog := []
    removedLog := []
    file := []
    processed := []
    errors := 0
    displayStopped := false
    poolTerminated := false
    outcome := none }

/-- Tail of the loop body (`cfscanner.py` lines 219-221): increment the
cidr's scanned counter; if it now equals the block's candidate count, remove
the block's progress task. -/
def finishResult (cfg : TestConfig) (s : LoopState) (res : ProbeResult) :
    LoopState :=
  let s :=
    { s with cidr_scanned_ips :=
        (Function.update s.cidr_scanned_ips res.cidr
          (s.cidr_scanned_ips res.cidr + 1)) }
  if s.cidr_scanned_ips res.cidr
      = get_num_ips_in_cidr res.cidr cfg.sample_size then
    match s.cidr_prog_tasks res.cidr with
    | some tid =>
        { s with active := s.active.erase tid
                 removedLog := s.removedLog ++ [tid] }
    | none => s
  else s

/-- An exception escaped the loop body and is absorbed by the generic
`except Exception` handler (lines 244-247): log and continue.  All state
changes made before the raise point persist. -/
def absorb (s : LoopState) : LoopState :=
  { s with errors := s.errors + 1 }

/-- Lines 181-185 of `cfscanner.py`: when the block's scanned counter is
still 0, allocate a fresh progress task for the block and record it in
`cidr_prog_tasks`. -/
def maybeCreateTask (s : LoopState) (res : ProbeResult) : LoopState :=
  if s.cidr_scanned_ips res.cidr = 0 then
    { s with nextTid := s.nextTid + 1
             active := s.active ++ [s.nextTid]
             createdLog := s.createdLog ++ [(res.cidr, s.nextTid)]
             cidr_prog_tasks :=
               (Function.update s.cidr_prog_tasks res.cidr (some s.nextTid)) }
  else s

/-- Lines 188-221 of `cfscanner.py` from the `res.is_ok` branch on: compute
the row (may raise `StatisticsError`), append it to the results file (may
raise `OSError`, the `writeFails` flag), then run the tail of the body
(`finishResult`).  A failed result is only reported (line 217) before the
tail runs. -/
def writeAndFinish (cfg : TestConfig) (s : LoopState) (res : ProbeResult)
    (writeFails : Bool) : LoopState :=
  if res.is_ok then
    match buildResParts cfg res with
    | .error _ => absorb s
    | .ok row =>
      if writeFails then absorb s
      else finishResult cfg { s with file := s.file ++ [row] } res
  else finishResult cfg s res

/-- Body of the loop for one yielded result (`cfscanner.py` lines 179-221),
in source order.  Raise points modelled: the `cidr_scanned_ips[res.cidr]`
dict lookup (line 181, `KeyError` when the cidr is not a key of the dict
built on line 166), `progress.update` on a task id no longer rendered
(line 186, `KeyError`), `statistics.mean` of an empty sequence (lines
193-199, `StatisticsError`), and the result-file open/write (lines 204-215,
`OSError`, modelled by the `writeFails` environment flag).  Each raise is
absorbed by the generic handler with all earlier state changes kept. -/
def processResult (cfg : TestConfig) (cidr_list : List Cidr)
    (s : LoopState) (res : ProbeResult) (writeFails : Bool) : LoopState :=
  -- line 180: progress.update(all_ips_task, advance=1)
  let s := { s with overall := s.overall + 1
                    processed := s.processed ++ [res] }
  if res.cidr ∈ cidr_list then
    -- lines 181-185: lazy creation of the block's progress task
    let s := maybeCreateTask s res
    -- line 186: progress.update(cidr_prog_tasks[res.cidr], advance=1)
    match s.cidr_prog_tasks res.cidr with
    | none => absorb s
    | some tid =>
      if tid ∈ s.active then writeAndFinish cfg s res writeFails
      else absorb s
  else absorb s

/-- One interaction of the loop with `next(iterator)` (`cfscanner.py`
line 179): either a `ProbeResult` is yielded (paired with the
environment's verdict on the result-file write for that result), or one of
the three exceptional outcomes of `next` is raised. -/
inductive ScanEvent where
  | yield (res : ProbeResult) (writeFails : Bool)
  | startError
  | stop
  | interrupt
deriving DecidableEq

/-- One iteration of the `while True` loop (`cfscanner.py` lines 177-247):
process a yielded result, or run the matching `except` handler.
`startError` (lines 222-227) stops the display, terminates the pool and
breaks — without touching the task table or the results file.  `stop`
(lines 228-234) stops and removes every rendered task, stops the display
and breaks.  `interrupt` (lines 235-243) stops and removes every rendered
task, stops the display, terminates the pool and breaks. -/
def stepEvent (cfg : TestConfig) (cidr_list : List Cidr)
    (s : LoopState) (e : ScanEvent) : LoopState :=
  match e with
  | .yield res writeFails => processResult cfg cidr_list s res writeFails
  | .startError =>
      { s with displayStopped := true
               poolTerminated := true
               outcome := some .aborted }
  | .stop =>
      { s with removedLog := s.removedLog ++ s.active
               active := []
               displayStopped := true
               outcome := some .completed }
  | .interrupt =>
      { s with removedLog := s.removedLog ++ s.active
               active := []
               displayStopped := true
               poolTerminated := true
               outcome := some .cancelled }

/-- Guarded step: after a handler has broken out of the loop, no further
event is consumed. -/
def stepG (cfg : TestConfig) (cidr_list : List Cidr)
    (s : LoopState) (e : ScanEvent) : LoopState :=
  if s.outcome.isSome then s else stepEvent cfg cidr_list s e

/-- The scan loop, run over a sequence of `next(iterator)` outcomes. -/
def run (cfg : TestConfig) (cidr_list : List Cidr)
    (events : List ScanEvent) : LoopState :=
  events.foldl (stepG cfg cidr_list) initState

/-- Exit status of the process once the scan loop has been entered.  Every
terminal handler `break`s (lines 227, 234, 243) and no statement follows
the loop: the `with` blocks unwind and the script falls off the end, so the
interpreter exits with status 0 on every in-scan termination path —
including the fatal `StartProxyServiceError` path, whose handler logs the
error but never calls `exit`. -/
def scanPhaseExitCode (cfg : TestConfig) (cidr_list : List Cidr)
    (events : List ScanEvent) : ℕ :=
  (run cfg cidr_list events).outcome.elim 0 (fun _ => 0)

/-- A trace consisting only of yielded results: one `(result, writeFails)`
pair per call to `next(iterator)` that returns normally. -/
def yieldTrace (rs : List (ProbeResult × Bool)) : List ScanEvent :=
  rs.map (fun p => ScanEvent.yield p.1 p.2)

/-- Sum of the per-block scanned counters over the configured block list
(spec §8: "the sum of all per-block `scanned` counters"). -/
def sumScanned (cl : List Cidr) (s : LoopState) : ℕ :=
  (cl.map s.cidr_scanned_ips).sum

/-- Number of yielded results originating from block `c` in a trace. -/
def countYields (c : Cidr) (events : List ScanEvent) : ℕ :=
  events.countP (fun e =>
    match e with
    | .yield res _ => res.cidr = c
    | _ => false)

/-- Placeholder result used as the default of out-of-range list reads in
trace constructions; never consumed in the theorems. -/
def dummyResult : ProbeResult :=
  { ip := "", cidr := { base := 0, prefixLen := 0 }, is_ok := false,
    message := "",
    result := { download := { speed := [], latency := [] },
                upload := { speed := [], latency := [] } } }

/-- Modelled from the library contract of `multiprocessing.Pool.imap`
(line 175): results are handed to the consuming loop in submission order,
whatever order the workers complete them.  `drainFrom fuel k done` is the
buffer flush: emit consecutive submission indices starting at `k` as long
as they have completed. -/
def drainFrom : ℕ → ℕ → Finset ℕ → List ℕ
  | 0, _, _ => []
  | fuel + 1, k, done => if k ∈ done then k :: drainFrom fuel (k + 1) done else []

/-- Modelled from the library contract of `multiprocessing.Pool.imap`:
process worker completions one at a time (`js` is the completion order);
after recording a completion, flush every submission index that is now
ready.  `k` is the next index to hand out, `done` the set of completed
indices. -/
def imapRunAux (n : ℕ) : ℕ → Finset ℕ → List ℕ → List ℕ
  | _, _, [] => []
  | k, done, j :: js =>
      let done' := insert j done
      let e := drainFrom (n + 1) k done'
      e ++ imapRunAux n (k + e.length) done' js

/-- The order in which `imap` hands the `n` submitted tasks' results to the
consumer, given the order `π` in which workers complete them. -/
def imapEmissions (n : ℕ) (π : List ℕ) : List ℕ :=
  imapRunAux n 0 ∅ π

/-- Number of `add_task` calls recorded for block `c`. -/
def countCreated (c : Cidr) (s : LoopState) : ℕ :=
  s.createdLog.countP (fun p => p.1 = c)

/-- Concrete configuration used in witnesses and counterexamples: one trial
per direction, upload testing disabled, sample size 10. -/
def cfgW : TestConfig :=
  { n_tries := 1, do_upload_test := false, sample_size := 10 }

/-- Concrete /31 block: two addresses, so its candidate total under `cfgW`
is `min 10 2 = 2`. -/
def cidrA : Cidr := { base := 0, prefixLen := 31 }

/-- Concrete successful probe result for `cidrA`, well-formed for one trial
with upload testing disabled (upload sequences absent, spec §3). -/
def okA : ProbeResult :=
  { ip := "0.0.0.0", cidr := cidrA, is_ok := true, message := "ok",
    result := { download := { speed := [10], latency := [20] },
                upload := { speed := [], latency := [] } } }

/-! ### Lemmas about the single stages of the loop body -/

theorem absorb_overall (s : LoopState) : (absorb s).overall = s.overall := rfl

theorem absorb_processed (s : LoopState) :
    (absorb s).processed = s.processed := rfl

theorem absorb_outcome (s : LoopState) : (absorb s).outcome = s.outcome := rfl

theorem absorb_errors (s : LoopState) :
    (absorb s).errors = s.errors + 1 := rfl

theorem absorb_file (s : LoopState) : (absorb s).file = s.file := rfl

theorem absorb_scanned (s : LoopState) :
    (absorb s).cidr_scanned_ips = s.cidr_scanned_ips := rfl

theorem absorb_removedLog (s : LoopState) :
    (absorb s).removedLog = s.removedLog := rfl

theorem absorb_displayStopped (s : LoopState) :
    (absorb s).displayStopped = s.displayStopped := rfl

theorem absorb_poolTerminated (s : LoopState) :
    (absorb s).poolTerminated = s.poolTerminated := rfl

theorem maybeCreateTask_overall (s : LoopState) (res : ProbeResult) :
    (maybeCreateTask s res).overall = s.overall := by
  unfold maybeCreateTask; split <;> rfl

theorem maybeCreateTask_processed (s : LoopState) (res : ProbeResult) :
    (maybeCreateTask s res).processed = s.processed := by
  unfold maybeCreateTask; split <;> rfl

theorem maybeCreateTask_outcome (s : LoopState) (res : ProbeResult) :
    (maybeCreateTask s res).outcome = s.outcome := by
  unfold maybeCreateTask; split <;> rfl

theorem maybeCreateTask_errors (s : LoopState) (res : ProbeResult) :
    (maybeCreateTask s res).errors = s.errors := by
  unfold maybeCreateTask; split <;> rfl

theorem maybeCreateTask_file (s : LoopState) (res : ProbeResult) :
    (maybeCreateTask s res).file = s.file := by
  unfold maybeCreateTask; split <;> rfl

theorem maybeCreateTask_scanned (s : LoopState) (res : ProbeResult) :
    (maybeCreateTask s res).cidr_scanned_ips = s.cidr_scanned_ips := by
  unfold maybeCreateTask; split <;> rfl

theorem maybeCreateTask_removedLog (s : LoopState) (res : ProbeResult) :
    (maybeCreateTask s res).removedLog = s.removedLog := by
  unfold maybeCreateTask; split <;> rfl

theorem maybeCreateTask_displayStopped (s : LoopState) (res : ProbeResult) :
    (maybeCreateTask s res).displayStopped = s.displayStopped := by
  unfold maybeCreateTask; split <;> rfl

theorem maybeCreateTask_poolTerminated (s : LoopState) (res : ProbeResult) :
    (maybeCreateTask s res).poolTerminated = s.poolTerminated := by
  unfold maybeCreateTask; split <;> rfl

theorem finishResult_overall (cfg : TestConfig) (s : LoopState)
    (res : ProbeResult) : (finishResult cfg s res).overall = s.overall := by
  unfold finishResult; dsimp only; split
  · split <;> rfl
  · rfl

theorem finishResult_processed (cfg : TestConfig) (s : LoopState)
    (res : ProbeResult) :
    (finishResult cfg s res).processed = s.processed := by
  unfold finishResult; dsimp only; split
  · split <;> rfl
  · rfl

theorem finishResult_outcome (cfg : TestConfig) (s : LoopState)
    (res : ProbeResult) : (finishResult cfg s res).outcome = s.outcome := by
  unfold finishResult; dsimp only; split
  · split <;> rfl
  · rfl

theorem finishResult_errors (cfg : TestConfig) (s : LoopState)
    (res : ProbeResult) : (finishResult cfg s res).errors = s.errors := by
  unfold finishResult; dsimp only; split
  · split <;> rfl
  · rfl

theorem finishResult_file (cfg : TestConfig) (s : LoopState)
    (res : ProbeResult) : (finishResult cfg s res).file = s.file := by
  unfold finishResult; dsimp only; split
  · split <;> rfl
  · rfl

theorem finishResult_createdLog (cfg : TestConfig) (s : LoopState)
    (res : ProbeResult) :
    (finishResult cfg s res).createdLog = s.createdLog := by
  unfold finishResult; dsimp only; split
  · split <;> rfl
  · rfl

theorem finishResult_displayStopped (cfg : TestConfig) (s : LoopState)
    (res : ProbeResult) :
    (finishResult cfg s res).displayStopped = s.displayStopped := by
  unfold finishResult; dsimp only; split
  · split <;> rfl
  · rfl

theorem finishResult_poolTerminated (cfg : TestConfig) (s : LoopState)
    (res : ProbeResult) :
    (finishResult cfg s res).poolTerminated = s.poolTerminated := by
  unfold finishResult; dsimp only; split
  · split <;> rfl
  · rfl

theorem finishResult_scanned (cfg : TestConfig) (s : LoopState)
    (res : ProbeResult) :
    (finishResult cfg s res).cidr_scanned_ips
      = Function.update s.cidr_scanned_ips res.cidr
          (s.cidr_scanned_ips res.cidr + 1) := by
  unfold finishResult; dsimp only; split
  · split <;> rfl
  · rfl

theorem finishResult_removedLog_of_ne (cfg : TestConfig) (s : LoopState)
    (res : ProbeResult)
    (hc : s.cidr_scanned_ips res.cidr + 1
      ≠ get_num_ips_in_cidr res.cidr cfg.sample_size) :
    (finishResult cfg s res).removedLog = s.removedLog := by
  unfold finishResult
  dsimp only
  rw [if_neg]
  simpa [Function.update_same] using hc

/-- A removal performed by the tail of the loop body happens exactly when
the incremented scanned counter equals the block's total. -/
theorem finishResult_removedLog_grows (cfg : TestConfig) (s : LoopState)
    (res : ProbeResult)
    (h : (finishResult cfg s res).removedLog ≠ s.removedLog) :
    (finishResult cfg s res).cidr_scanned_ips res.cidr
      = get_num_ips_in_cidr res.cidr cfg.sample_size := by
  by_cases hc : s.cidr_scanned_ips res.cidr + 1
      = get_num_ips_in_cidr res.cidr cfg.sample_size
  · rw [finishResult_scanned, Function.update_same, hc]
  · exact absurd (finishResult_removedLog_of_ne cfg s res hc) h

theorem writeAndFinish_overall (cfg : TestConfig) (s : LoopState)
    (res : ProbeResult) (wf : Bool) :
    (writeAndFinish cfg s res wf).overall = s.overall := by
  unfold writeAndFinish
  split
  · split
    · rfl
    · split
      · rfl
      · exact finishResult_overall ..
  · exact finishResult_overall ..

theorem writeAndFinish_processed (cfg : TestConfig) (s : LoopState)
    (res : ProbeResult) (wf : Bool) :
    (writeAndFinish cfg s res wf).processed = s.processed := by
  unfold writeAndFinish
  split
  · split
    · rfl
    · split
      · rfl
      · exact finishResult_processed ..
  · exact finishResult_processed ..

theorem writeAndFinish_outcome (cfg : TestConfig) (s : LoopState)
    (res : ProbeResult) (wf : Bool) :
    (writeAndFinish cfg s res wf).outcome = s.outcome := by
  unfold writeAndFinish
  split
  · split
    · rfl
    · split
      · rfl
      · exact finishResult_outcome ..
  · exact finishResult_outcome ..

theorem writeAndFinish_createdLog (cfg : TestConfig) (s : LoopState)
    (res : ProbeResult) (wf : Bool) :
    (writeAndFinish cfg s res wf).createdLog = s.createdLog := by
  unfold writeAndFinish
  split
  · split
    · rfl
    · split
      · rfl
      · exact finishResult_createdLog ..
  · exact finishResult_createdLog ..

theorem writeAndFinish_displayStopped (cfg : TestConfig) (s : LoopState)
    (res : ProbeResult) (wf : Bool) :
    (writeAndFinish cfg s res wf).displayStopped = s.displayStopped := by
  unfold writeAndFinish
  split
  · split
    · rfl
    · split
      · rfl
      · exact finishResult_displayStopped ..
  · exact finishResult_displayStopped ..

theorem writeAndFinish_poolTerminated (cfg : TestConfig) (s : LoopState)
    (res : ProbeResult) (wf : Bool) :
    (writeAndFinish cfg s res wf).poolTerminated = s.poolTerminated := by
  unfold writeAndFinish
  split
  · split
    · rfl
    · split
      · rfl
      · exact finishResult_poolTerminated ..
  · exact finishResult_poolTerminated ..

/-- Path analysis of the write-and-finish stage: either an exception was
absorbed (errors grew, nothing else of interest changed), or the stage ran
to completion (scanned counter advanced; exactly one line appended iff the
result was successful). -/
theorem writeAndFinish_cases (cfg : TestConfig) (s : LoopState)
    (res : ProbeResult) (wf : Bool) :
    ((writeAndFinish cfg s res wf).errors = s.errors + 1 ∧
     (writeAndFinish cfg s res wf).cidr_scanned_ips = s.cidr_scanned_ips ∧
     (writeAndFinish cfg s res wf).file = s.file ∧
     (writeAndFinish cfg s res wf).removedLog = s.removedLog)
    ∨ ((writeAndFinish cfg s res wf).errors = s.errors ∧
       (writeAndFinish cfg s res wf).cidr_scanned_ips
         = Function.update s.cidr_scanned_ips res.cidr
             (s.cidr_scanned_ips res.cidr + 1) ∧
       ((res.is_ok = true ∧
          ∃ row, (writeAndFinish cfg s res wf).file = s.file ++ [row]) ∨
        (res.is_ok = false ∧
          (writeAndFinish cfg s res wf).file = s.file))) := by
  unfold writeAndFinish
  split
  · next hok =>
    split
    · exact Or.inl ⟨rfl, rfl, rfl, rfl⟩
    · next row heq =>
      split
      · exact Or.inl ⟨rfl, rfl, rfl, rfl⟩
      · refine Or.inr ⟨finishResult_errors .., ?_, Or.inl ⟨hok, row, ?_⟩⟩
        · rw [finishResult_scanned]
        · rw [finishResult_file]
  · next hok =>
    refine Or.inr ⟨finishResult_errors .., by rw [finishResult_scanned],
      Or.inr ⟨by simpa using hok, finishResult_file ..⟩⟩

/-- The overall progress counter is advanced exactly once per yielded
result, whatever happens to the rest of the body (`cfscanner.py`
line 180 runs before every later raise point). -/
theorem processResult_overall (cfg : TestConfig) (cl : List Cidr)
    (s : LoopState) (res : ProbeResult) (wf : Bool) :
    (processResult cfg cl s res wf).overall = s.overall + 1 := by
  unfold processResult
  dsimp only
  split
  · split
    · rw [absorb_overall, maybeCreateTask_overall]
    · split
      · rw [writeAndFinish_overall, maybeCreateTask_overall]
      · rw [absorb_overall, maybeCreateTask_overall]
  · rw [absorb_overall]

theorem processResult_processed (cfg : TestConfig) (cl : List Cidr)
    (s : LoopState) (res : ProbeResult) (wf : Bool) :
    (processResult cfg cl s res wf).processed = s.processed ++ [res] := by
  unfold processResult
  dsimp only
  split
  · split
    · rw [absorb_processed, maybeCreateTask_processed]
    · split
      · rw [writeAndFinish_processed, maybeCreateTask_processed]
      · rw [absorb_processed, maybeCreateTask_processed]
  · rw [absorb_processed]

/-- Processing a yielded result never breaks out of the loop: the generic
handler (lines 244-247) absorbs every non-terminal exception. -/
theorem processResult_outcome (cfg : TestConfig) (cl : List Cidr)
    (s : LoopState) (res : ProbeResult) (wf : Bool) :
    (processResult cfg cl s res wf).outcome = s.outcome := by
  unfold processResult
  dsimp only
  split
  · split
    · rw [absorb_outcome, maybeCreateTask_outcome]
    · split
      · rw [writeAndFinish_outcome, maybeCreateTask_outcome]
      · rw [absorb_outcome, maybeCreateTask_outcome]
  · rw [absorb_outcome]

theorem processResult_displayStopped (cfg : TestConfig) (cl : List Cidr)
    (s : LoopState) (res : ProbeResult) (wf : Bool) :
    (processResult cfg cl s res wf).displayStopped = s.displayStopped := by
  unfold processResult
  dsimp only
  split
  · split
    · rw [absorb_displayStopped, maybeCreateTask_displayStopped]
    · split
      · rw [writeAndFinish_displayStopped, maybeCreateTask_displayStopped]
      · rw [absorb_displayStopped, maybeCreateTask_displayStopped]
  · rw [absorb_displayStopped]

theorem processResult_poolTerminated (cfg : TestConfig) (cl : List Cidr)
    (s : LoopState) (res : ProbeResult) (wf : Bool) :
    (processResult cfg cl s res wf).poolTerminated = s.poolTerminated := by
  unfold processResult
  dsimp only
  split
  · split
    · rw [absorb_poolTerminated, maybeCreateTask_poolTerminated]
    · split
      · rw [writeAndFinish_poolTerminated, maybeCreateTask_poolTerminated]
      · rw [absorb_poolTerminated, maybeCreateTask_poolTerminated]
  · rw [absorb_poolTerminated]

/-- Path analysis of the loop body for one yielded result: either an
exception was raised somewhere after the overall advance and absorbed by
the generic handler — leaving the block's scanned counter, the results
file and the removal log untouched — or the body ran to completion: the
result's block is a configured block, its scanned counter advanced by one,
and exactly one line was appended iff the result was successful. -/
theorem processResult_cases (cfg : TestConfig) (cl : List Cidr)
    (s : LoopState) (res : ProbeResult) (wf : Bool) :
    ((processResult cfg cl s res wf).errors = s.errors + 1 ∧
     (processResult cfg cl s res wf).cidr_scanned_ips
       = s.cidr_scanned_ips ∧
     (processResult cfg cl s res wf).file = s.file ∧
     (processResult cfg cl s res wf).removedLog = s.removedLog)
    ∨ ((processResult cfg cl s res wf).errors = s.errors ∧ res.cidr ∈ cl ∧
       (processResult cfg cl s res wf).cidr_scanned_ips
         = Function.update s.cidr_scanned_ips res.cidr
             (s.cidr_scanned_ips res.cidr + 1) ∧
       ((res.is_ok = true ∧
          ∃ row, (processResult cfg cl s res wf).file = s.file ++ [row]) ∨
        (res.is_ok = false ∧
          (processResult cfg cl s res wf).file = s.file))) := by
  unfold processResult
  dsimp only
  split
  · next hmem =>
    split
    · refine Or.inl ⟨?_, ?_, ?_, ?_⟩
      · rw [absorb_errors, maybeCreateTask_errors]
      · rw [absorb_scanned, maybeCreateTask_scanned]
      · rw [absorb_file, maybeCreateTask_file]
      · rw [absorb_removedLog, maybeCreateTask_removedLog]
    · split
      · rcases writeAndFinish_cases cfg (maybeCreateTask _ res) res wf with
          ⟨he, hs, hf, hr⟩ | ⟨he, hs, hok⟩
        · refine Or.inl ⟨?_, ?_, ?_, ?_⟩
          · rw [he, maybeCreateTask_errors]
          · rw [hs, maybeCreateTask_scanned]
          · rw [hf, maybeCreateTask_file]
          · rw [hr, maybeCreateTask_removedLog]
        · refine Or.inr ⟨?_, hmem, ?_, ?_⟩
          · rw [he, maybeCreateTask_errors]
          · rw [hs, maybeCreateTask_scanned]
          · rcases hok with ⟨hok, row, hf⟩ | ⟨hok, hf⟩
            · exact Or.inl ⟨hok, row, by rw [hf, maybeCreateTask_file]⟩
            · exact Or.inr ⟨hok, by rw [hf, maybeCreateTask_file]⟩
      · refine Or.inl ⟨?_, ?_, ?_, ?_⟩
        · rw [absorb_errors, maybeCreateTask_errors]
        · rw [absorb_scanned, maybeCreateTask_scanned]
        · rw [absorb_file, maybeCreateTask_file]
        · rw [absorb_removedLog, maybeCreateTask_removedLog]
  · refine Or.inl ⟨rfl, rfl, rfl, rfl⟩

/-! ### Lemmas about the guarded loop step and the loop runner -/

theorem stepG_yield (cfg : TestConfig) (cl : List Cidr) (s : LoopState)
    (res : ProbeResult) (wf : Bool) (h : s.outcome = none) :
    stepG cfg cl s (.yield res wf) = processResult cfg cl s res wf := by
  unfold stepG
  rw [h]
  rfl

theorem stepG_startError (cfg : TestConfig) (cl : List Cidr) (s : LoopState)
    (h : s.outcome = none) :
    stepG cfg cl s .startError
      = { s with displayStopped := true
                 poolTerminated := true
                 outcome := some .aborted } := by
  unfold stepG
  rw [h]
  rfl

theorem stepG_stop (cfg : TestConfig) (cl : List Cidr) (s : LoopState)
    (h : s.outcome = none) :
    stepG cfg cl s .stop
      = { s with removedLog := s.removedLog ++ s.active
                 active := []
                 displayStopped := true
                 outcome := some .completed } := by
  unfold stepG
  rw [h]
  rfl

theorem stepG_interrupt (cfg : TestConfig) (cl : List Cidr) (s : LoopState)
    (h : s.outcome = none) :
    stepG cfg cl s .interrupt
      = { s with removedLog := s.removedLog ++ s.active
                 active := []
                 displayStopped := true
                 poolTerminated := true
                 outcome := some .cancelled } := by
  unfold stepG
  rw [h]
  rfl

theorem stepG_of_isSome (cfg : TestConfig) (cl : List Cidr) (s : LoopState)
    (e : ScanEvent) (h : s.outcome.isSome) : stepG cfg cl s e = s := by
  unfold stepG
  rw [if_pos h]

/-- Once a handler has broken out of the loop, the rest of the event
stream is never consumed. -/
theorem foldl_stepG_of_isSome (cfg : TestConfig) (cl : List Cidr)
    (es : List ScanEvent) (s : LoopState) (h : s.outcome.isSome) :
    es.foldl (stepG cfg cl) s = s := by
  induction es with
  | nil => rfl
  | cons e es ih =>
      rw [List.foldl_cons, stepG_of_isSome cfg cl s e h]
      exact ih

theorem run_append (cfg : TestConfig) (cl : List Cidr)
    (es es2 : List ScanEvent) :
    run cfg cl (es ++ es2) = es2.foldl (stepG cfg cl) (run cfg cl es) := by
  unfold run
  exact List.foldl_append ..

theorem yieldTrace_cons (p : ProbeResult × Bool)
    (rs : List (ProbeResult × Bool)) :
    yieldTrace (p :: rs) = ScanEvent.yield p.1 p.2 :: yieldTrace rs := rfl

theorem yieldTrace_length (rs : List (ProbeResult × Bool)) :
    (yieldTrace rs).length = rs.length := by
  unfold yieldTrace
  exact List.length_map ..

/-- Over a stream of yielded results the loop never breaks out. -/
theorem foldl_yields_outcome (cfg : TestConfig) (cl : List Cidr) :
    ∀ (rs : List (ProbeResult × Bool)) (s : LoopState), s.outcome = none →
      ((yieldTrace rs).foldl (stepG cfg cl) s).outcome = none := by
  intro rs
  induction rs with
  | nil => intro s h; exact h
  | cons p rs ih =>
      intro s h
      rw [yieldTrace_cons, List.foldl_cons, stepG_yield cfg cl s p.1 p.2 h]
      exact ih _ (by rw [processResult_outcome]; exact h)

/-- The overall counter advances by exactly one per yielded result. -/
theorem foldl_yields_overall (cfg : TestConfig) (cl : List Cidr) :
    ∀ (rs : List (ProbeResult × Bool)) (s : LoopState), s.outcome = none →
      ((yieldTrace rs).foldl (stepG cfg cl) s).overall
        = s.overall + rs.length := by
  intro rs
  induction rs with
  | nil => intro s _; rfl
  | cons p rs ih =>
      intro s h
      rw [yieldTrace_cons, List.foldl_cons, stepG_yield cfg cl s p.1 p.2 h]
      rw [ih _ (by rw [processResult_outcome]; exact h)]
      rw [processResult_overall]
      simp [List.length_cons]
      omega

/-- Results enter the aggregation/progress/persistence stages in exactly
the order in which the pool yields them. -/
theorem foldl_yields_processed (cfg : TestConfig) (cl : List Cidr) :
    ∀ (rs : List (ProbeResult × Bool)) (s : LoopState), s.outcome = none →
      ((yieldTrace rs).foldl (stepG cfg cl) s).processed
        = s.processed ++ rs.map (fun p => p.1) := by
  intro rs
  induction rs with
  | nil => intro s _; simp [yieldTrace]
  | cons p rs ih =>
      intro s h
      rw [yieldTrace_cons, List.foldl_cons, stepG_yield cfg cl s p.1 p.2 h]
      rw [ih _ (by rw [processResult_outcome]; exact h)]
      rw [processResult_processed]
      simp

theorem stepG_errors_le (cfg : TestConfig) (cl : List Cidr) (s : LoopState)
    (e : ScanEvent) : s.errors ≤ (stepG cfg cl s e).errors := by
  unfold stepG
  split
  · exact le_refl _
  · cases e with
    | yield res wf =>
        rcases processResult_cases cfg cl s res wf with
          ⟨he, _, _, _⟩ | ⟨he, _, _, _⟩ <;> rw [stepEvent] <;> omega
    | startError => exact le_refl _
    | stop => exact le_refl _
    | interrupt => exact le_refl _

theorem foldl_errors_le (cfg : TestConfig) (cl : List Cidr) :
    ∀ (es : List ScanEvent) (s : LoopState),
      s.errors ≤ (es.foldl (stepG cfg cl) s).errors := by
  intro es
  induction es with
  | nil => intro s; exact le_refl _
  | cons e es ih =>
      intro s
      rw [List.foldl_cons]
      exact le_trans (stepG_errors_le cfg cl s e) (ih _)

/-- If the whole run absorbed no exception, each individual body ran
cleanly: the result's block is configured and its counter advanced. -/
theorem processResult_clean (cfg : TestConfig) (cl : List Cidr)
    (s : LoopState) (res : ProbeResult) (wf : Bool)
    (h : (processResult cfg cl s res wf).errors = s.errors) :
    res.cidr ∈ cl ∧
    (processResult cfg cl s res wf).cidr_scanned_ips
      = Function.update s.cidr_scanned_ips res.cidr
          (s.cidr_scanned_ips res.cidr + 1) ∧
    ((res.is_ok = true ∧
       ∃ row, (processResult cfg cl s res wf).file = s.file ++ [row]) ∨
     (res.is_ok = false ∧
       (processResult cfg cl s res wf).file = s.file)) := by
  rcases processResult_cases cfg cl s res wf with
    ⟨he, _, _, _⟩ | ⟨_, hmem, hs, hf⟩
  · omega
  · exact ⟨hmem, hs, hf⟩

/-- Incrementing one configured block's counter raises the sum of the
per-block counters by one. -/
theorem sum_map_update (f : Cidr → ℕ) :
    ∀ (cl : List Cidr) (c : Cidr), cl.Nodup → c ∈ cl →
      (cl.map (Function.update f c (f c + 1))).sum = (cl.map f).sum + 1 := by
  intro cl
  induction cl with
  | nil => intro c _ hmem; cases hmem
  | cons a cl ih =>
      intro c hnd hmem
      rcases List.mem_cons.mp hmem with rfl | hmem
      · have htail : ∀ x ∈ cl, Function.update f c (f c + 1) x = f x := by
          intro x hx
          have : x ≠ c := fun hxc =>
            (List.nodup_cons.mp hnd).1 (hxc ▸ hx)
          exact Function.update_noteq this _ _
        rw [List.map_cons, List.map_cons, List.map_congr_left htail,
          Function.update_same, List.sum_cons, List.sum_cons]
        omega
      · have hac : a ≠ c := fun hac =>
          (List.nodup_cons.mp hnd).1 (hac ▸ hmem)
        rw [List.map_cons, List.map_cons, List.sum_cons, List.sum_cons,
          Function.update_noteq hac,
          ih c (List.nodup_cons.mp hnd).2 hmem]
        omega

/-- In a run that absorbed no exception, every yielded result bumps the
sum of the per-block scanned counters by exactly one. -/
theorem foldl_yields_sumScanned (cfg : TestConfig) (cl : List Cidr)
    (hnd : cl.Nodup) :
    ∀ (rs : List (ProbeResult × Bool)) (s : LoopState), s.outcome = none →
      ((yieldTrace rs).foldl (stepG cfg cl) s).errors = s.errors →
      sumScanned cl ((yieldTrace rs).foldl (stepG cfg cl) s)
        = sumScanned cl s + rs.length := by
  intro rs
  induction rs with
  | nil => intro s _ _; rfl
  | cons p rs ih =>
      intro s h herr
      rw [yieldTrace_cons, List.foldl_cons, stepG_yield cfg cl s p.1 p.2 h]
        at herr ⊢
      have hmono1 := stepG_errors_le cfg cl s (.yield p.1 p.2)
      rw [stepG_yield cfg cl s p.1 p.2 h] at hmono1
      have hmono2 := foldl_errors_le cfg cl (yieldTrace rs)
        (processResult cfg cl s p.1 p.2)
      have hstep : (processResult cfg cl s p.1 p.2).errors = s.errors := by
        omega
      obtain ⟨hmem, hs, _⟩ := processResult_clean cfg cl s p.1 p.2 hstep
      have hout : (processResult cfg cl s p.1 p.2).outcome = none := by
        rw [processResult_outcome]; exact h
      rw [ih _ hout (by omega)]
      have : sumScanned cl (processResult cfg cl s p.1 p.2)
          = sumScanned cl s + 1 := by
        unfold sumScanned
        rw [hs]
        exact sum_map_update s.cidr_scanned_ips cl p.1.cidr hnd hmem
      rw [this]
      simp [List.length_cons]
      omega

/-! ### Creation and removal bookkeeping of the per-block progress tasks -/

theorem absorb_createdLog (s : LoopState) :
    (absorb s).createdLog = s.createdLog := rfl

theorem maybeCreateTask_createdLog (s : LoopState) (res : ProbeResult) :
    (maybeCreateTask s res).createdLog
      = if s.cidr_scanned_ips res.cidr = 0
        then s.createdLog ++ [(res.cidr, s.nextTid)]
        else s.createdLog := by
  unfold maybeCreateTask
  split <;> rfl

/-- `add_task` for a block is called during the processing of a result
exactly when the result's block is configured and its scanned counter is
still zero — including bodies later interrupted by an absorbed
exception. -/
theorem processResult_createdLog (cfg : TestConfig) (cl : List Cidr)
    (s : LoopState) (res : ProbeResult) (wf : Bool) :
    (processResult cfg cl s res wf).createdLog
      = if res.cidr ∈ cl ∧ s.cidr_scanned_ips res.cidr = 0
        then s.createdLog ++ [(res.cidr, s.nextTid)]
        else s.createdLog := by
  unfold processResult
  dsimp only
  split
  · next hmem =>
    split
    · rw [absorb_createdLog, maybeCreateTask_createdLog]
      simp [hmem]
    · split
      · rw [writeAndFinish_createdLog, maybeCreateTask_createdLog]
        simp [hmem]
      · rw [absorb_createdLog, maybeCreateTask_createdLog]
        simp [hmem]
  · next hmem =>
    rw [absorb_createdLog]
    rw [if_neg (fun hand => hmem hand.1)]

theorem countYields_cons (c : Cidr) (e : ScanEvent) (es : List ScanEvent) :
    countYields c (e :: es) = countYields c [e] + countYields c es := by
  unfold countYields
  rw [List.countP_cons, List.countP_cons, List.countP_nil]
  omega

/-- A block's scanned counter is bounded by the number of results yielded
for that block, in every run — exception-riddled ones included. -/
theorem foldl_scanned_le (cfg : TestConfig) (cl : List Cidr) (c : Cidr) :
    ∀ (es : List ScanEvent) (s : LoopState),
      (es.foldl (stepG cfg cl) s).cidr_scanned_ips c
        ≤ s.cidr_scanned_ips c + countYields c es := by
  intro es
  induction es with
  | nil =>
      intro s
      unfold countYields
      simp
  | cons e es ih =>
      intro s
      rw [List.foldl_cons, countYields_cons]
      have hstep : (stepG cfg cl s e).cidr_scanned_ips c
          ≤ s.cidr_scanned_ips c + countYields c [e] := by
        unfold stepG
        split
        · omega
        · cases e with
          | yield res wf =>
              have hcount : countYields c [ScanEvent.yield res wf]
                  = if res.cidr = c then 1 else 0 := by
                unfold countYields
                rw [List.countP_cons, List.countP_nil]
                simp
              rcases processResult_cases cfg cl s res wf with
                ⟨_, hs, _, _⟩ | ⟨_, _, hs, _⟩
              · show (processResult cfg cl s res wf).cidr_scanned_ips c ≤ _
                rw [hs]
                omega
              · show (processResult cfg cl s res wf).cidr_scanned_ips c ≤ _
                rw [hs, hcount]
                by_cases hc : res.cidr = c
                · rw [hc, Function.update_same]
                  simp [hc]
                · rw [Function.update_noteq (fun h => hc h.symm)]
                  omega
          | startError => simp [stepEvent, countYields]
          | stop => simp [stepEvent, countYields]
          | interrupt => simp [stepEvent, countYields]
      calc (es.foldl (stepG cfg cl) (stepG cfg cl s e)).cidr_scanned_ips c
          ≤ (stepG cfg cl s e).cidr_scanned_ips c + countYields c es := ih _
        _ ≤ s.cidr_scanned_ips c + (countYields c [e] + countYields c es) := by
              omega

/-- Invariant of exception-free runs: a block's progress entry has been
created exactly once as soon as its counter is positive, and not at all
while its counter is zero. -/
theorem foldl_yields_countCreated (cfg : TestConfig) (cl : List Cidr) :
    ∀ (rs : List (ProbeResult × Bool)) (s : LoopState), s.outcome = none →
      ((yieldTrace rs).foldl (stepG cfg cl) s).errors = s.errors →
      (∀ c, (s.cidr_scanned_ips c = 0 → countCreated c s = 0) ∧
            (0 < s.cidr_scanned_ips c → countCreated c s = 1)) →
      (∀ c, (((yieldTrace rs).foldl (stepG cfg cl) s).cidr_scanned_ips c = 0 →
               countCreated c ((yieldTrace rs).foldl (stepG cfg cl) s) = 0) ∧
            (0 < ((yieldTrace rs).foldl (stepG cfg cl) s).cidr_scanned_ips c →
               countCreated c ((yieldTrace rs).foldl (stepG cfg cl) s) = 1)) := by
  intro rs
  induction rs with
  | nil => intro s _ _ hJ; exact hJ
  | cons p rs ih =>
      intro s hout herr hJ
      rw [yieldTrace_cons, List.foldl_cons, stepG_yield cfg cl s p.1 p.2 hout]
        at herr ⊢
      have hmono1 := stepG_errors_le cfg cl s (.yield p.1 p.2)
      rw [stepG_yield cfg cl s p.1 p.2 hout] at hmono1
      have hmono2 := foldl_errors_le cfg cl (yieldTrace rs)
        (processResult cfg cl s p.1 p.2)
      have hstep : (processResult cfg cl s p.1 p.2).errors = s.errors := by
        omega
      obtain ⟨hmem, hs, _⟩ := processResult_clean cfg cl s p.1 p.2 hstep
      have hout1 : (processResult cfg cl s p.1 p.2).outcome = none := by
        rw [processResult_outcome]; exact hout
      refine ih _ hout1 (by omega) ?_
      intro c
      have hlog := processResult_createdLog cfg cl s p.1 p.2
      by_cases h0 : s.cidr_scanned_ips p.1.cidr = 0
      · rw [if_pos ⟨hmem, h0⟩] at hlog
        by_cases hc : p.1.cidr = c
        · subst hc
          constructor
          · intro hz
            rw [hs, Function.update_same] at hz
            omega
          · intro _
            unfold countCreated
            rw [hlog, List.countP_append]
            have : countCreated p.1.cidr s = 0 := (hJ p.1.cidr).1 h0
            unfold countCreated at this
            rw [this]
            simp
        · constructor
          · intro hz
            rw [hs, Function.update_noteq (fun h => hc h.symm)] at hz
            unfold countCreated
            rw [hlog, List.countP_append]
            have : countCreated c s = 0 := (hJ c).1 hz
            unfold countCreated at this
            rw [this]
            simp [hc]
          · intro hpos
            rw [hs, Function.update_noteq (fun h => hc h.symm)] at hpos
            unfold countCreated
            rw [hlog, List.countP_append]
            have : countCreated c s = 1 := (hJ c).2 hpos
            unfold countCreated at this
            rw [this]
            simp [hc]
      · rw [if_neg (fun hand => h0 hand.2)] at hlog
        by_cases hc : p.1.cidr = c
        · subst hc
          constructor
          · intro hz
            rw [hs, Function.update_same] at hz
            omega
          · intro _
            unfold countCreated
            rw [hlog]
            exact (hJ p.1.cidr).2 (by omega)
        · constructor
          · intro hz
            rw [hs, Function.update_noteq (fun h => hc h.symm)] at hz
            unfold countCreated
            rw [hlog]
            exact (hJ c).1 hz
          · intro hpos
            rw [hs, Function.update_noteq (fun h => hc h.symm)] at hpos
            unfold countCreated
            rw [hlog]
            exact (hJ c).2 hpos

/-! ### The imap reordering buffer emits in submission order -/

theorem drainFrom_spec (n : ℕ) :
    ∀ (fuel k : ℕ) (done : Finset ℕ), (∀ x ∈ done, x < n) →
      n + 1 ≤ fuel + k →
      ∃ m, drainFrom fuel k done = List.range' k m ∧
        (∀ i, i < m → k + i ∈ done) ∧ k + m ∉ done := by
  intro fuel
  induction fuel with
  | zero =>
      intro k done hsub hle
      refine ⟨0, rfl, fun i hi => absurd hi (Nat.not_lt_zero i), fun hk => ?_⟩
      have := hsub _ hk
      omega
  | succ fuel ih =>
      intro k done hsub hle
      by_cases hk : k ∈ done
      · obtain ⟨m, heq, hin, hout⟩ := ih (k + 1) done hsub (by omega)
        refine ⟨m + 1, ?_, ?_, ?_⟩
        · rw [show drainFrom (fuel + 1) k done
              = k :: drainFrom fuel (k + 1) done from by
            simp [drainFrom, hk]]
          rw [List.range'_succ, heq]
        · intro i hi
          cases i with
          | zero => simpa using hk
          | succ j =>
              have h2 : k + (j + 1) = (k + 1) + j := by omega
              rw [h2]
              exact hin j (by omega)
        · have h2 : k + (m + 1) = (k + 1) + m := by omega
          rw [h2]
          exact hout
      · refine ⟨0, ?_, fun i hi => absurd hi (Nat.not_lt_zero i),
          by simpa using hk⟩
        simp [drainFrom, hk]

theorem imapRunAux_spec (n : ℕ) :
    ∀ (js : List ℕ) (k : ℕ) (done : Finset ℕ),
      js.Nodup →
      (∀ j ∈ js, j ∉ done) →
      (∀ x ∈ done, x < n) →
      (∀ j ∈ js, j < n) →
      (∀ x, x < n → x ∈ done ∨ x ∈ js) →
      (∀ i, i < k → i ∈ done) →
      k ∉ done →
      imapRunAux n k done js = List.range' k (n - k) := by
  intro js
  induction js with
  | nil =>
      intro k done _ _ hdn _ hcov hlow hk
      have h1 : n ≤ k := by
        by_contra h
        rcases hcov k (by omega) with hin | hin
        · exact hk hin
        · exact List.not_mem_nil k hin
      have h2 : k ≤ n := by
        by_contra h
        have hmem := hlow n (by omega)
        have := hdn n hmem
        omega
      have hkn : k = n := by omega
      rw [hkn, Nat.sub_self]
      rfl
  | cons j js ih =>
      intro k done hnd hnotin hdn hjn hcov hlow hk
      have hdn' : ∀ x ∈ insert j done, x < n := by
        intro x hx
        rcases Finset.mem_insert.mp hx with rfl | hx
        · exact hjn x (List.mem_cons_self ..)
        · exact hdn x hx
      obtain ⟨m, heq, hin, hout⟩ :=
        drainFrom_spec n (n + 1) k (insert j done) hdn' (by omega)
      have hk_le : k ≤ n := by
        by_contra h
        have hmem := hlow n (by omega)
        have := hdn n hmem
        omega
      have hkm_le : k + m ≤ n := by
        by_contra h
        have hmem := hin (n - k) (by omega)
        have := hdn' _ hmem
        omega
      have IH := ih (k + m) (insert j done)
        (List.nodup_cons.mp hnd).2
        (fun j' hj' hmem => by
          rcases Finset.mem_insert.mp hmem with h | h
          · exact (List.nodup_cons.mp hnd).1 (h ▸ hj')
          · exact hnotin j' (List.mem_cons_of_mem _ hj') h)
        hdn'
        (fun j' hj' => hjn j' (List.mem_cons_of_mem _ hj'))
        (fun x hx => by
          rcases hcov x hx with h | h
          · exact Or.inl (Finset.mem_insert_of_mem h)
          · rcases List.mem_cons.mp h with rfl | h
            · exact Or.inl (Finset.mem_insert_self ..)
            · exact Or.inr h)
        (fun i hi => by
          by_cases hik : i < k
          · exact Finset.mem_insert_of_mem (hlow i hik)
          · have hmem := hin (i - k) (by omega)
            have h2 : k + (i - k) = i := by omega
            rw [h2] at hmem
            exact hmem)
        hout
      show imapRunAux n k done (j :: js) = _
      rw [show imapRunAux n k done (j :: js)
          = drainFrom (n + 1) k (insert j done)
            ++ imapRunAux n
                (k + (drainFrom (n + 1) k (insert j done)).length)
                (insert j done) js from rfl]
      rw [heq, List.length_range', IH]
      have happ := List.range'_append k m (n - (k + m)) 1
      simp only [Nat.one_mul] at happ
      rw [happ]
      congr 1
      omega

/-- Whatever order the workers complete, the reordering buffer of `imap`
hands results to the consumer in submission order `0, 1, ..., n-1`. -/
theorem imapEmissions_perm (n : ℕ) (π : List ℕ)
    (h : π.Perm (List.range n)) : imapEmissions n π = List.range n := by
  unfold imapEmissions
  have hnd : π.Nodup := h.nodup_iff.mpr (List.nodup_range n)
  have hres := imapRunAux_spec n π 0 ∅ hnd
    (fun j _ => Finset.not_mem_empty j)
    (fun x hx => absurd hx (Finset.not_mem_empty x))
    (fun j hj => List.mem_range.mp (h.mem_iff.mp hj))
    (fun x hx => Or.inr (h.mem_iff.mpr (List.mem_range.mpr hx)))
    (fun i hi => absurd hi (Nat.not_lt_zero i))
    (Finset.not_mem_empty 0)
  rw [hres, Nat.sub_zero, List.range_eq_range']

/-- Reading a list back by positions yields the list. -/
theorem map_getD_range {α : Type} (d : α) :
    ∀ (l : List α), (List.range l.length).map (fun i => l.getD i d) = l := by
  intro l
  induction l with
  | nil => rfl
  | cons a t ih =>
      rw [List.length_cons, List.range_succ_eq_map, List.map_cons,
        List.map_map]
      have hcomp : ((fun i => (a :: t).getD i d) ∘ Nat.succ)
          = fun i => t.getD i d := funext fun i => rfl
      rw [hcomp]
      rw [ih]
      rfl

/-! ### Assorted helper lemmas for the claim theorems -/

theorem titles_length (n : ℕ) : (titles n).length = 7 + 4 * n := by
  simp [titles]
  omega

/-- A removal in the write-and-finish stage happens exactly at the instant
the block's scanned counter reaches the block's candidate total. -/
theorem writeAndFinish_removedLog_grows (cfg : TestConfig) (s : LoopState)
    (res : ProbeResult) (wf : Bool)
    (h : (writeAndFinish cfg s res wf).removedLog ≠ s.removedLog) :
    (writeAndFinish cfg s res wf).cidr_scanned_ips res.cidr
      = get_num_ips_in_cidr res.cidr cfg.sample_size := by
  by_cases hok : res.is_ok = true
  · cases hbp : buildResParts cfg res with
    | error e =>
        rw [show writeAndFinish cfg s res wf = absorb s from by
          simp [writeAndFinish, hok, hbp]] at h ⊢
        rw [absorb_removedLog] at h
        exact absurd rfl h
    | ok row =>
        cases wf with
        | true =>
            rw [show writeAndFinish cfg s res true = absorb s from by
              simp [writeAndFinish, hok, hbp]] at h ⊢
            rw [absorb_removedLog] at h
            exact absurd rfl h
        | false =>
            rw [show writeAndFinish cfg s res false
                = finishResult cfg { s with file := s.file ++ [row] } res from by
              simp [writeAndFinish, hok, hbp]] at h ⊢
            exact finishResult_removedLog_grows cfg _ res h
  · rw [show writeAndFinish cfg s res wf = finishResult cfg s res from by
      simp [writeAndFinish, hok]] at h ⊢
    exact finishResult_removedLog_grows cfg s res h

/-- During the processing of one yielded result, a `remove_task` call
happens exactly at the instant the block's scanned counter reaches the
block's candidate total. -/
theorem processResult_removedLog_grows (cfg : TestConfig) (cl : List Cidr)
    (s : LoopState) (res : ProbeResult) (wf : Bool)
    (h : (processResult cfg cl s res wf).removedLog ≠ s.removedLog) :
    (processResult cfg cl s res wf).cidr_scanned_ips res.cidr
      = get_num_ips_in_cidr res.cidr cfg.sample_size := by
  unfold processResult at h ⊢
  dsimp only at h ⊢
  by_cases hmem : res.cidr ∈ cl
  · rw [if_pos hmem] at h ⊢
    generalize hs2 : maybeCreateTask { s with overall := s.overall + 1, processed := s.processed ++ [res] } res = s2 at h ⊢
    have hrem : s2.removedLog = s.removedLog := by
      rw [← hs2, maybeCreateTask_removedLog]
    cases htid : s2.cidr_prog_tasks res.cidr with
    | none =>
        simp only [htid] at h ⊢
        rw [absorb_removedLog, hrem] at h
        exact absurd rfl h
    | some tid =>
        simp only [htid] at h ⊢
        by_cases hact : tid ∈ s2.active
        · rw [if_pos hact] at h ⊢
          refine writeAndFinish_removedLog_grows cfg s2 res wf ?_
          rw [hrem]
          exact h
        · rw [if_neg hact] at h ⊢
          rw [absorb_removedLog, hrem] at h
          exact absurd rfl h
  · rw [if_neg hmem] at h ⊢
    rw [absorb_removedLog] at h
    exact absurd rfl h

/-- Once the scan loop has been entered, the interpreter's exit status is 0
on every path: no handler calls `exit` and nothing follows the loop. -/
theorem scanPhaseExitCode_zero (cfg : TestConfig) (cl : List Cidr)
    (es : List ScanEvent) : scanPhaseExitCode cfg cl es = 0 := by
  unfold scanPhaseExitCode
  cases (run cfg cl es).outcome <;> rfl

theorem run_yields_outcome (cfg : TestConfig) (cl : List Cidr)
    (rs : List (ProbeResult × Bool)) :
    (run cfg cl (yieldTrace rs)).outcome = none :=
  foldl_yields_outcome cfg cl rs initState rfl

theorem run_yields_overall (cfg : TestConfig) (cl : List Cidr)
    (rs : List (ProbeResult × Bool)) :
    (run cfg cl (yieldTrace rs)).overall = rs.length := by
  have h := foldl_yields_overall cfg cl rs initState rfl
  unfold run
  rw [h]
  simp [initState]

theorem run_yields_processed (cfg : TestConfig) (cl : List Cidr)
    (rs : List (ProbeResult × Bool)) :
    (run cfg cl (yieldTrace rs)).processed = rs.map (fun p => p.1) := by
  have h := foldl_yields_processed cfg cl rs initState rfl
  unfold run
  rw [h]
  simp [initState]

theorem sumScanned_init (cl : List Cidr) : sumScanned cl initState = 0 := by
  unfold sumScanned initState
  induction cl with
  | nil => rfl
  | cons c cl ih => simp

/-- Appending one terminal event to a running trace: the run of the longer
trace is one guarded step beyond the run of the prefix. -/
theorem run_snoc (cfg : TestConfig) (cl : List Cidr)
    (es : List ScanEvent) (e : ScanEvent) :
    run cfg cl (es ++ [e]) = stepG cfg cl (run cfg cl es) e := by
  rw [run_append]
  rfl

theorem run_yields_sumScanned (cfg : TestConfig) (cl : List Cidr)
    (hnd : cl.Nodup) (rs : List (ProbeResult × Bool))
    (herr : (run cfg cl (yieldTrace rs)).errors = 0) :
    sumScanned cl (run cfg cl (yieldTrace rs)) = rs.length := by
  have hsum := foldl_yields_sumScanned cfg cl hnd rs initState rfl herr
  unfold run
  rw [hsum, sumScanned_init]
  exact Nat.zero_add _

/-! ### Claim theorems -/

/-- C1, counterexample: a successful result processed with upload testing
disabled (one trial, spec-modelled absent upload sequences) produces a line
whose field count (9) differs from the header's column count (11): the raw
upload columns are not emitted at all, so the line does not follow the
header's fixed layout as the claim states. -/
theorem c1_counterexample :
    okA.is_ok = true ∧ cfgW.do_upload_test = false ∧
    (buildResParts cfgW okA).toOption.map List.length
      ≠ some ((titles cfgW.n_tries).length) := by
  refine ⟨rfl, rfl, fun hcontra => ?_⟩
  rw [show (buildResParts cfgW okA).toOption.map List.length
      = some 9 from rfl] at hcontra
  rw [show (titles cfgW.n_tries).length = 11 from rfl] at hcontra
  exact absurd (Option.some.inj hcontra) (by decide)

/-- C1 (amended): for every successful ProbeResult written while upload
testing is disabled, the three upload summary figures are populated with
the sentinel -1, but the raw upload-speed and upload-latency columns are
omitted entirely: the line has `7 + 2·nTries` fields, short of the header's
`7 + 4·nTries` columns. -/
theorem c1_upload_columns_amended (cfg : TestConfig) (res : ProbeResult)
    (hup : cfg.do_upload_test = false)
    (_hok : res.is_ok = true)
    (hds : res.result.download.speed.length = cfg.n_tries)
    (hdl : res.result.download.latency.length = cfg.n_tries)
    (hn : 1 ≤ cfg.n_tries)
    (hus : res.result.upload.speed = [])
    (hul : res.result.upload.latency = []) :
    ∃ mds mdl,
      buildResParts cfg res = Except.ok
        ([Val.vStr res.ip, Val.vRat mds, Val.vRat (-1), Val.vRat mdl,
          Val.vRat (-1), Val.vRat (mean_jitter res.result.download.latency),
          Val.vRat (-1)]
         ++ res.result.download.speed.map Val.vRat
         ++ res.result.download.latency.map Val.vRat) ∧
      (buildResParts cfg res).toOption.map List.length
        = some (7 + 2 * cfg.n_tries) ∧
      7 + 2 * cfg.n_tries < (titles cfg.n_tries).length := by
  have hse : res.result.download.speed ≠ [] := by
    intro hemp
    rw [hemp] at hds
    simp at hds
    omega
  have hle : res.result.download.latency ≠ [] := by
    intro hemp
    rw [hemp] at hdl
    simp at hdl
    omega
  have heq : buildResParts cfg res = Except.ok
      ([Val.vStr res.ip,
        Val.vRat (res.result.download.speed.sum
          / res.result.download.speed.length),
        Val.vRat (-1),
        Val.vRat (res.result.download.latency.sum
          / res.result.download.latency.length),
        Val.vRat (-1), Val.vRat (mean_jitter res.result.download.latency),
        Val.vRat (-1)]
       ++ res.result.download.speed.map Val.vRat
       ++ res.result.download.latency.map Val.vRat) := by
    simp [buildResParts, mean, hup, hse, hle, hus, hul]
    rfl
  refine ⟨_, _, heq, ?_, ?_⟩
  · rw [heq]
    show some _ = some _
    refine congrArg some ?_
    simp [hds, hdl]
    omega
  · rw [titles_length]
    omega

/-- C1 witness: the amended statement evaluated at the concrete disabled
upload configuration and result. -/
theorem c1_upload_columns_amended_witness :
    ∃ mds mdl,
      buildResParts cfgW okA = Except.ok
        ([Val.vStr okA.ip, Val.vRat mds, Val.vRat (-1), Val.vRat mdl,
          Val.vRat (-1), Val.vRat (mean_jitter okA.result.download.latency),
          Val.vRat (-1)]
         ++ okA.result.download.speed.map Val.vRat
         ++ okA.result.download.latency.map Val.vRat) ∧
      (buildResParts cfgW okA).toOption.map List.length
        = some (7 + 2 * cfgW.n_tries) ∧
      7 + 2 * cfgW.n_tries < (titles cfgW.n_tries).length :=
  c1_upload_columns_amended cfgW okA rfl rfl rfl rfl (by decide) rfl rfl

/-- C2, counterexample: on the fatal probe-service start error path the
loop breaks with outcome Aborted, but the process exit status is 0 — the
handler (lines 222-227) never sets a non-zero exit condition, contrary to
the claim. -/
theorem c2_counterexample :
    (run cfgW [cidrA] [ScanEvent.startError]).outcome
      = some Outcome.aborted ∧
    scanPhaseExitCode cfgW [cidrA] [ScanEvent.startError] = 0 := ⟨rfl, rfl⟩

/-- C2 (amended): if the probe-execution collaborator raises a fatal
probe-service start error during the scan, the progress display is torn
down, the worker pool is terminated, all result lines already written are
preserved unchanged, no further event is consumed — and the process then
ends with exit status 0 (no non-zero exit condition is surfaced on this
path). -/
theorem c2_fatal_abort_amended (cfg : TestConfig) (cl : List Cidr)
    (rs : List (ProbeResult × Bool)) (rest : List ScanEvent) :
    (run cfg cl (yieldTrace rs ++ ScanEvent.startError :: rest)).displayStopped
      = true ∧
    (run cfg cl (yieldTrace rs ++ ScanEvent.startError :: rest)).poolTerminated
      = true ∧
    (run cfg cl (yieldTrace rs ++ ScanEvent.startError :: rest)).file
      = (run cfg cl (yieldTrace rs)).file ∧
    (run cfg cl (yieldTrace rs ++ ScanEvent.startError :: rest)).processed
      = (run cfg cl (yieldTrace rs)).processed ∧
    (run cfg cl (yieldTrace rs ++ ScanEvent.startError :: rest)).outcome
      = some Outcome.aborted ∧
    scanPhaseExitCode cfg cl (yieldTrace rs ++ ScanEvent.startError :: rest)
      = 0 := by
  have hout := run_yields_outcome cfg cl rs
  have hassoc : yieldTrace rs ++ ScanEvent.startError :: rest
      = (yieldTrace rs ++ [ScanEvent.startError]) ++ rest := by simp
  have h1 : run cfg cl (yieldTrace rs ++ ScanEvent.startError :: rest)
      = stepG cfg cl (run cfg cl (yieldTrace rs)) ScanEvent.startError := by
    rw [hassoc, run_append, run_snoc]
    rw [stepG_startError cfg cl _ hout]
    exact foldl_stepG_of_isSome cfg cl rest _ rfl
  rw [h1, stepG_startError cfg cl _ hout]
  exact ⟨rfl, rfl, rfl, rfl, rfl, scanPhaseExitCode_zero ..⟩

/-- C5, counterexample: after a fatal probe-service abort, the progress
display is stopped but the still-active tracker entries (the overall task 0
and the block task 1) are neither stopped nor removed — stale entries
remain, contrary to the claim's "on every termination path". -/
theorem c5_counterexample :
    (run cfgW [cidrA]
      [ScanEvent.yield okA false, ScanEvent.startError]).outcome
      = some Outcome.aborted ∧
    (run cfgW [cidrA]
      [ScanEvent.yield okA false, ScanEvent.startError]).displayStopped
      = true ∧
    (run cfgW [cidrA]
      [ScanEvent.yield okA false, ScanEvent.startError]).active = [0, 1] ∧
    (run cfgW [cidrA]
      [ScanEvent.yield okA false, ScanEvent.startError]).removedLog = [] :=
  ⟨rfl, rfl, rfl, rfl⟩

/-- C5 (amended): on normal completion and on cancellation every active
progress tracker is stopped and removed (the active table is emptied, each
entry passing through the removal log); on the fatal abort path the display
is stopped but the active entries are not removed. -/
theorem c5_teardown_amended (cfg : TestConfig) (cl : List Cidr)
    (rs : List (ProbeResult × Bool)) :
    (run cfg cl (yieldTrace rs ++ [ScanEvent.stop])).active = [] ∧
    (run cfg cl (yieldTrace rs ++ [ScanEvent.stop])).removedLog
      = (run cfg cl (yieldTrace rs)).removedLog
        ++ (run cfg cl (yieldTrace rs)).active ∧
    (run cfg cl (yieldTrace rs ++ [ScanEvent.interrupt])).active = [] ∧
    (run cfg cl (yieldTrace rs ++ [ScanEvent.interrupt])).removedLog
      = (run cfg cl (yieldTrace rs)).removedLog
        ++ (run cfg cl (yieldTrace rs)).active ∧
    (run cfg cl (yieldTrace rs ++ [ScanEvent.startError])).active
      = (run cfg cl (yieldTrace rs)).active := by
  have hout := run_yields_outcome cfg cl rs
  rw [run_snoc, run_snoc, run_snoc, stepG_stop cfg cl _ hout,
    stepG_interrupt cfg cl _ hout, stepG_startError cfg cl _ hout]
  exact ⟨rfl, rfl, rfl, rfl, rfl⟩

/-- C6: if an external interruption request arrives while the scan loop is
running (any prefix of yielded results), all progress trackers are stopped
and removed, the pool is terminated, the loop breaks with outcome Cancelled
(the handler absorbs the interrupt, nothing is re-raised), and the results
file is exactly what had been written before the interruption. -/
theorem c6_cancellation (cfg : TestConfig) (cl : List Cidr)
    (rs : List (ProbeResult × Bool)) :
    (run cfg cl (yieldTrace rs ++ [ScanEvent.interrupt])).active = [] ∧
    (run cfg cl (yieldTrace rs ++ [ScanEvent.interrupt])).displayStopped
      = true ∧
    (run cfg cl (yieldTrace rs ++ [ScanEvent.interrupt])).poolTerminated
      = true ∧
    (run cfg cl (yieldTrace rs ++ [ScanEvent.interrupt])).outcome
      = some Outcome.cancelled ∧
    (run cfg cl (yieldTrace rs ++ [ScanEvent.interrupt])).file
      = (run cfg cl (yieldTrace rs)).file := by
  rw [run_snoc, stepG_interrupt cfg cl _ (run_yields_outcome cfg cl rs)]
  exact ⟨rfl, rfl, rfl, rfl, rfl⟩

/-- C3: whatever order `π` the workers complete in, the results enter the
aggregation/progress/persistence stages in exactly the candidate submission
order of `big_ip_list` (the consuming fold is single-threaded by
construction, so no two results are ever processed concurrently), and the
scan then terminates normally. -/
theorem c3_ordered_consumption (cfg : TestConfig) (cl : List Cidr)
    (f : ℕ × Cidr → ProbeResult) (w : ℕ → Bool) (π : List ℕ)
    (hπ : π.Perm (List.range (big_ip_list cl cfg.sample_size).length)) :
    (run cfg cl (yieldTrace
        ((imapEmissions (big_ip_list cl cfg.sample_size).length π).map
          (fun i => (((big_ip_list cl cfg.sample_size).map f).getD i
            dummyResult, w i)))
      ++ [ScanEvent.stop])).processed
      = (big_ip_list cl cfg.sample_size).map f ∧
    (run cfg cl (yieldTrace
        ((imapEmissions (big_ip_list cl cfg.sample_size).length π).map
          (fun i => (((big_ip_list cl cfg.sample_size).map f).getD i
            dummyResult, w i)))
      ++ [ScanEvent.stop])).outcome = some Outcome.completed := by
  set rsl := (imapEmissions (big_ip_list cl cfg.sample_size).length π).map
    (fun i => (((big_ip_list cl cfg.sample_size).map f).getD i
      dummyResult, w i)) with hrsl
  have hout := run_yields_outcome cfg cl rsl
  rw [run_snoc, stepG_stop cfg cl _ hout]
  refine ⟨?_, rfl⟩
  show (run cfg cl (yieldTrace rsl)).processed
    = (big_ip_list cl cfg.sample_size).map f
  rw [run_yields_processed cfg cl rsl, hrsl, imapEmissions_perm _ π hπ,
    List.map_map]
  have hcomp : ((fun p : ProbeResult × Bool => p.1)
      ∘ fun i => (((big_ip_list cl cfg.sample_size).map f).getD i
        dummyResult, w i))
      = fun i => ((big_ip_list cl cfg.sample_size).map f).getD i
          dummyResult := rfl
  rw [hcomp, show (big_ip_list cl cfg.sample_size).length
    = ((big_ip_list cl cfg.sample_size).map f).length
    from (List.length_map ..).symm]
  exact map_getD_range dummyResult _

/-- C3 witness: a two-candidate scan whose second candidate completes
first; the stages still see the results in submission order. -/
theorem c3_ordered_consumption_witness :
    (run cfgW [cidrA] (yieldTrace
        ((imapEmissions (big_ip_list [cidrA] cfgW.sample_size).length
            [1, 0]).map
          (fun i => (((big_ip_list [cidrA] cfgW.sample_size).map
            (fun _ => okA)).getD i dummyResult, (fun _ => false) i)))
      ++ [ScanEvent.stop])).processed
      = (big_ip_list [cidrA] cfgW.sample_size).map (fun _ => okA) ∧
    (run cfgW [cidrA] (yieldTrace
        ((imapEmissions (big_ip_list [cidrA] cfgW.sample_size).length
            [1, 0]).map
          (fun i => (((big_ip_list [cidrA] cfgW.sample_size).map
            (fun _ => okA)).getD i dummyResult, (fun _ => false) i)))
      ++ [ScanEvent.stop])).outcome = some Outcome.completed :=
  c3_ordered_consumption cfgW [cidrA] (fun _ => okA) (fun _ => false)
    [1, 0] (by decide)

/-- C4, counterexample: an unexpected per-candidate exception (a failing
result-file write) strikes after `add_task` but before the scanned
increment, so the next result for the same block finds the counter still 0
and `add_task` runs again: the block's entry is created twice, contrary to
"created on the first ProbeResult … never recreated afterwards — including
in runs where processing … raises an unexpected per-candidate
exception". -/
theorem c4_counterexample :
    (run cfgW [cidrA] [ScanEvent.yield okA true, ScanEvent.yield okA false,
      ScanEvent.stop]).createdLog = [(cidrA, 1), (cidrA, 2)] ∧
    countCreated cidrA (run cfgW [cidrA] [ScanEvent.yield okA true,
      ScanEvent.yield okA false, ScanEvent.stop]) = 2 ∧
    (run cfgW [cidrA] [ScanEvent.yield okA true, ScanEvent.yield okA false,
      ScanEvent.stop]).errors = 1 := ⟨rfl, rfl, rfl⟩

/-- C4 (amended): the scanned counter never exceeds the block's total
(whenever the trace delivers at most the block's candidate count, as every
real scan does); a removal during result processing happens exactly at the
instant the counter reaches the total; and in runs without per-candidate
exceptions the block's entry is created exactly once, by the first result
of the block.  (With an exception before the scanned increment the entry
can be created again — see the counterexample.) -/
theorem c4_progress_lifecycle_amended (cfg : TestConfig) (cl : List Cidr) :
    (∀ (es : List ScanEvent) (c : Cidr),
       countYields c es ≤ get_num_ips_in_cidr c cfg.sample_size →
       (run cfg cl es).cidr_scanned_ips c
         ≤ get_num_ips_in_cidr c cfg.sample_size) ∧
    (∀ (s : LoopState) (res : ProbeResult) (wf : Bool), s.outcome = none →
       (stepG cfg cl s (.yield res wf)).removedLog ≠ s.removedLog →
       (stepG cfg cl s (.yield res wf)).cidr_scanned_ips res.cidr
         = get_num_ips_in_cidr res.cidr cfg.sample_size) ∧
    (∀ (rs : List (ProbeResult × Bool)) (c : Cidr),
       (run cfg cl (yieldTrace rs)).errors = 0 →
       ((run cfg cl (yieldTrace rs)).cidr_scanned_ips c = 0 →
          countCreated c (run cfg cl (yieldTrace rs)) = 0) ∧
       (0 < (run cfg cl (yieldTrace rs)).cidr_scanned_ips c →
          countCreated c (run cfg cl (yieldTrace rs)) = 1)) := by
  refine ⟨?_, ?_, ?_⟩
  · intro es c hbound
    have h := foldl_scanned_le cfg cl c es initState
    have h0 : initState.cidr_scanned_ips c = 0 := rfl
    unfold run
    omega
  · intro s res wf hout hne
    rw [stepG_yield cfg cl s res wf hout] at hne ⊢
    exact processResult_removedLog_grows cfg cl s res wf hne
  · intro rs c herr
    refine foldl_yields_countCreated cfg cl rs initState rfl herr ?_ c
    intro c0
    exact ⟨fun _ => rfl, fun h => absurd h (lt_irrefl 0)⟩

/-- C4 witness: the amended statement evaluated on a clean two-candidate
scan of the /31 block. -/
theorem c4_progress_lifecycle_amended_witness :
    (run cfgW [cidrA]
      (yieldTrace [(okA, false), (okA, false)])).cidr_scanned_ips cidrA
      ≤ get_num_ips_in_cidr cidrA cfgW.sample_size ∧
    (stepG cfgW [cidrA] (run cfgW [cidrA] (yieldTrace [(okA, false)]))
      (ScanEvent.yield okA false)).cidr_scanned_ips okA.cidr
      = get_num_ips_in_cidr okA.cidr cfgW.sample_size ∧
    countCreated cidrA (run cfgW [cidrA] (yieldTrace [(okA, false)])) = 1 := by
  obtain ⟨h1, h2, h3⟩ := c4_progress_lifecycle_amended cfgW [cidrA]
  refine ⟨h1 (yieldTrace [(okA, false), (okA, false)]) cidrA (by decide),
    h2 (run cfgW [cidrA] (yieldTrace [(okA, false)])) okA false (by rfl)
      (by decide),
    (h3 [(okA, false)] cidrA (by rfl)).2 (by decide)⟩

/-- C7, counterexample: a one-candidate scan with no fatal error in which
the single result's processing raises (the file write fails): the run
completes, the overall counter reaches 1 = k, but the per-block scanned
counters sum to 0 ≠ k, contrary to the claim. -/
theorem c7_counterexample :
    (run cfgW [cidrA] (yieldTrace [(okA, true)] ++ [ScanEvent.stop])).outcome
      = some Outcome.completed ∧
    (run cfgW [cidrA]
      (yieldTrace [(okA, true)] ++ [ScanEvent.stop])).overall = 1 ∧
    sumScanned [cidrA]
      (run cfgW [cidrA] (yieldTrace [(okA, true)] ++ [ScanEvent.stop]))
      = 0 := ⟨rfl, rfl, rfl⟩

/-- C7 (amended): for every scan of k candidates with no fatal
probe-service error and in which additionally no per-candidate processing
exception is absorbed, at completion the per-block scanned counters sum to
k, the overall counter equals k, and the overall counter reaches k for the
first time at the k-th result and never exceeds it (its value after i
consumed events is `min i k`). -/
theorem c7_conservation_amended (cfg : TestConfig) (cl : List Cidr)
    (rs : List (ProbeResult × Bool)) (hnd : cl.Nodup)
    (herr : (run cfg cl (yieldTrace rs ++ [ScanEvent.stop])).errors = 0) :
    sumScanned cl (run cfg cl (yieldTrace rs ++ [ScanEvent.stop]))
      = rs.length ∧
    (run cfg cl (yieldTrace rs ++ [ScanEvent.stop])).overall = rs.length ∧
    (run cfg cl (yieldTrace rs ++ [ScanEvent.stop])).outcome
      = some Outcome.completed ∧
    (∀ i, (run cfg cl ((yieldTrace rs ++ [ScanEvent.stop]).take i)).overall
      = min i rs.length) := by
  have hout := run_yields_outcome cfg cl rs
  have hstep : run cfg cl (yieldTrace rs ++ [ScanEvent.stop])
      = stepG cfg cl (run cfg cl (yieldTrace rs)) ScanEvent.stop :=
    run_snoc ..
  rw [hstep, stepG_stop cfg cl _ hout] at herr ⊢
  have herr2 : (run cfg cl (yieldTrace rs)).errors = 0 := herr
  refine ⟨?_, ?_, rfl, ?_⟩
  · show sumScanned cl (run cfg cl (yieldTrace rs)) = rs.length
    exact run_yields_sumScanned cfg cl hnd rs herr2
  · show (run cfg cl (yieldTrace rs)).overall = rs.length
    exact run_yields_overall ..
  · intro i
    by_cases hi : i ≤ rs.length
    · have htake : (yieldTrace rs ++ [ScanEvent.stop]).take i
          = yieldTrace (rs.take i) := by
        rw [List.take_append_of_le_length
          (by rw [yieldTrace_length]; exact hi)]
        unfold yieldTrace
        rw [← List.map_take]
      rw [htake, run_yields_overall, List.length_take]
    · have htake : (yieldTrace rs ++ [ScanEvent.stop]).take i
          = yieldTrace rs ++ [ScanEvent.stop] := by
        apply List.take_of_length_le
        rw [List.length_append, yieldTrace_length]
        simp only [List.length_cons, List.length_nil]
        omega
      rw [htake, hstep, stepG_stop cfg cl _ hout]
      show (run cfg cl (yieldTrace rs)).overall = min i rs.length
      rw [run_yields_overall]
      omega

/-- C7 witness: the amended statement on a clean two-candidate complete
scan, with the overall counter checked after one consumed event. -/
theorem c7_conservation_amended_witness :
    sumScanned [cidrA] (run cfgW [cidrA]
      (yieldTrace [(okA, false), (okA, false)] ++ [ScanEvent.stop])) = 2 ∧
    (run cfgW [cidrA] (yieldTrace [(okA, false), (okA, false)]
      ++ [ScanEvent.stop])).overall = 2 ∧
    (run cfgW [cidrA] ((yieldTrace [(okA, false), (okA, false)]
      ++ [ScanEvent.stop]).take 1)).overall = min 1 2 := by
  obtain ⟨h1, h2, _, h4⟩ := c7_conservation_amended cfgW [cidrA]
    [(okA, false), (okA, false)] (by decide) (by rfl)
  exact ⟨h1, h2, h4 1⟩

/-- C8, counterexample: a consumed ProbeResult with success flag true whose
file write fails appends no line at all, contrary to the claim's "exactly
one line is appended if and only if the result's success flag is true". -/
theorem c8_counterexample :
    okA.is_ok = true ∧
    (run cfgW [cidrA] (yieldTrace [(okA, true)])).processed = [okA] ∧
    (run cfgW [cidrA] (yieldTrace [(okA, true)])).file = [] :=
  ⟨rfl, rfl, rfl⟩

/-- C8 (amended): for every consumed ProbeResult whose processing raises no
unexpected exception, exactly one line is appended iff the success flag is
true; and a result with success flag false is never written to the table,
even when its processing raises. -/
theorem c8_write_iff_success_amended (cfg : TestConfig) (cl : List Cidr)
    (s : LoopState) (res : ProbeResult) (wf : Bool)
    (hout : s.outcome = none) :
    ((stepG cfg cl s (.yield res wf)).errors = s.errors →
      ((res.is_ok = true → ∃ row,
          (stepG cfg cl s (.yield res wf)).file = s.file ++ [row]) ∧
       (res.is_ok = false →
          (stepG cfg cl s (.yield res wf)).file = s.file))) ∧
    (res.is_ok = false → (stepG cfg cl s (.yield res wf)).file = s.file) := by
  rw [stepG_yield cfg cl s res wf hout]
  constructor
  · intro herr
    obtain ⟨_, _, hfile⟩ := processResult_clean cfg cl s res wf herr
    rcases hfile with ⟨hok, row, hf⟩ | ⟨hok, hf⟩
    · refine ⟨fun _ => ⟨row, hf⟩, fun hfalse => ?_⟩
      simp [hok] at hfalse
    · refine ⟨fun htrue => ?_, fun _ => hf⟩
      simp [hok] at htrue
  · intro hfalse
    rcases processResult_cases cfg cl s res wf with
      ⟨_, _, hf, _⟩ | ⟨_, _, _, hfile⟩
    · exact hf
    · rcases hfile with ⟨hok, _, _⟩ | ⟨_, hf⟩
      · simp [hok] at hfalse
      · exact hf

/-- C8 witness: a cleanly processed successful result appends exactly one
line. -/
theorem c8_write_iff_success_amended_witness :
    ∃ row, (stepG cfgW [cidrA] initState (ScanEvent.yield okA false)).file
      = initState.file ++ [row] :=
  ((c8_write_iff_success_amended cfgW [cidrA] initState okA false
    rfl).1 rfl).1 rfl

/-- C9: processing a yielded result never breaks out of the loop (the
generic handler absorbs every non-terminal exception, logging it by
incrementing the error count and leaving the loop state running), and a
stream of results — failing or not — is consumed to the end, every result
reaching the stages in order. -/
theorem c9_error_containment (cfg : TestConfig) (cl : List Cidr) :
    (∀ (s : LoopState) (res : ProbeResult) (wf : Bool), s.outcome = none →
       (stepG cfg cl s (.yield res wf)).outcome = none) ∧
    (∀ s : LoopState, (absorb s).errors = s.errors + 1 ∧
       (absorb s).outcome = s.outcome) ∧
    (∀ rs : List (ProbeResult × Bool),
       (run cfg cl (yieldTrace rs)).outcome = none ∧
       (run cfg cl (yieldTrace rs)).processed = rs.map (fun p => p.1)) := by
  refine ⟨?_, fun s => ⟨rfl, rfl⟩,
    fun rs => ⟨run_yields_outcome .., run_yields_processed ..⟩⟩
  intro s res wf hout
  rw [stepG_yield cfg cl s res wf hout, processResult_outcome]
  exact hout

/-- C9 witness: a result whose processing raises does not terminate the
loop; both candidates of the stream are consumed. -/
theorem c9_error_containment_witness :
    (stepG cfgW [cidrA] initState (ScanEvent.yield okA true)).outcome
      = none ∧
    (run cfgW [cidrA] (yieldTrace [(okA, true), (okA, false)])).processed
      = [okA, okA] := by
  obtain ⟨h1, _, h3⟩ := c9_error_containment cfgW [cidrA]
  refine ⟨h1 initState okA true rfl, ?_⟩
  rw [(h3 [(okA, true), (okA, false)]).2]
  rfl

/-- C10: the overall progress counter advances by exactly one per yielded
result (the advance happens before every later raise point of the body);
when the body raises, the per-block scanned counters are left untouched —
and there is a concrete run in which the overall counter strictly exceeds
the sum of the per-block scanned counters. -/
theorem c10_overall_advance (cfg : TestConfig) (cl : List Cidr) :
    (∀ (s : LoopState) (res : ProbeResult) (wf : Bool), s.outcome = none →
       (stepG cfg cl s (.yield res wf)).overall = s.overall + 1) ∧
    (∀ (s : LoopState) (res : ProbeResult) (wf : Bool), s.outcome = none →
       (stepG cfg cl s (.yield res wf)).errors = s.errors + 1 →
       (stepG cfg cl s (.yield res wf)).cidr_scanned_ips
         = s.cidr_scanned_ips) ∧
    sumScanned [cidrA] (run cfgW [cidrA] (yieldTrace [(okA, true)]))
      < (run cfgW [cidrA] (yieldTrace [(okA, true)])).overall := by
  refine ⟨?_, ?_, by decide⟩
  · intro s res wf hout
    rw [stepG_yield cfg cl s res wf hout, processResult_overall]
  · intro s res wf hout herr
    rw [stepG_yield cfg cl s res wf hout] at herr ⊢
    rcases processResult_cases cfg cl s res wf with
      ⟨_, hs, _, _⟩ | ⟨he, _, _, _⟩
    · exact hs
    · omega

/-- C10 witness: the advance evaluated at a state and a result whose
processing raises. -/
theorem c10_overall_advance_witness :
    (stepG cfgW [cidrA] initState (ScanEvent.yield okA true)).overall
      = initState.overall + 1 ∧
    sumScanned [cidrA] (run cfgW [cidrA] (yieldTrace [(okA, true)]))
      < (run cfgW [cidrA] (yieldTrace [(okA, true)])).overall := by
  obtain ⟨h1, _, h3⟩ := c10_overall_advance cfgW [cidrA]
  exact ⟨h1 initState okA true rfl, h3⟩

end CFScanner
